import Mathlib

/-!
Verification development for the L-system plant generator (`src/unnamed/part_000`).

The source is a TypeScript/three.js program.  The core logic embedded here is:
* the grammar expander (the iteration loop inside `generatePlantGeometry`),
* `getPlantColor`,
* the turtle interpreter (the `switch` over the expanded symbol string),
* the clone-based `TurtleStack`.

Host-library primitives (`THREE.Vector3`, `THREE.Quaternion`, `THREE.Color`,
`THREE.CylinderGeometry`, `Math.random`) are modelled from the documented
three.js semantics:
* `Vector3.normalize` divides by `length() || 1`, so normalizing the zero
  vector returns the zero vector;
* `Vector3.applyAxisAngle` applies the quaternion built by
  `Quaternion.setFromAxisAngle` via `Vector3.applyQuaternion`
  (`t = 2 cross(q.xyz, v); v + q.w t + cross(q.xyz, t)`);
* `CylinderGeometry(radiusTop, radiusBottom, height, ...)` is a cylinder
  centered at the local origin with the `radiusTop` cap at local
  `(0, height/2, 0)` and the `radiusBottom` cap at local `(0, -height/2, 0)`;
  a mesh maps a local point `p` to `mesh.position + quaternion ⬝ p`;
* `Math.random()` is an injectable stream `rho : ℕ → ℝ` consumed through a
  call counter, one value per call, in source order.

Real-number arithmetic stands in for JavaScript floats (exact reals, no
rounding), which is the standard idealization for this kind of geometry code.
-/

open scoped Classical

/-- Model of `THREE.Vector3`: a 3D vector with real components. -/
@[ext] structure Vec3 where
  x : ℝ
  y : ℝ
  z : ℝ

/-- Model of `Vector3.add`. -/
def Vec3.add (a b : Vec3) : Vec3 := ⟨a.x + b.x, a.y + b.y, a.z + b.z⟩

/-- Model of `Vector3.multiplyScalar`. -/
def Vec3.smul (c : ℝ) (v : Vec3) : Vec3 := ⟨c * v.x, c * v.y, c * v.z⟩

/-- Model of `Vector3.dot`. -/
def Vec3.dot (a b : Vec3) : ℝ := a.x * b.x + a.y * b.y + a.z * b.z

/-- Model of `Vector3.crossVectors`. -/
def Vec3.cross (a b : Vec3) : Vec3 :=
  ⟨a.y * b.z - a.z * b.y, a.z * b.x - a.x * b.z, a.x * b.y - a.y * b.x⟩

/-- Model of `Vector3.lengthSq`. -/
def Vec3.normSq (v : Vec3) : ℝ := v.x * v.x + v.y * v.y + v.z * v.z

/-- Model of `Vector3.length`. -/
noncomputable def Vec3.len (v : Vec3) : ℝ := Real.sqrt v.normSq

/-- Model of `Vector3.normalize`: three.js divides by `length() || 1`, so the
zero vector is returned unchanged (divided by 1). -/
noncomputable def Vec3.normalize (v : Vec3) : Vec3 :=
  Vec3.smul (1 / (if v.len = 0 then 1 else v.len)) v

/-- Model of `THREE.Quaternion`. -/
@[ext] structure Quat where
  x : ℝ
  y : ℝ
  z : ℝ
  w : ℝ

/-- Model of `Quaternion.setFromAxisAngle`. -/
noncomputable def Quat.setFromAxisAngle (axis : Vec3) (angle : ℝ) : Quat :=
  let halfAngle := angle / 2
  let s := Real.sin halfAngle
  ⟨axis.x * s, axis.y * s, axis.z * s, Real.cos halfAngle⟩

/-- Squared norm of a quaternion (`Quaternion.lengthSq`). -/
def Quat.normSq (q : Quat) : ℝ := q.x * q.x + q.y * q.y + q.z * q.z + q.w * q.w

/-- Model of `Vector3.applyQuaternion`:
`t = 2 * cross(q.xyz, v); v + q.w * t + cross(q.xyz, t)`. -/
def quatRotate (q : Quat) (v : Vec3) : Vec3 :=
  let tx := 2 * (q.y * v.z - q.z * v.y)
  let ty := 2 * (q.z * v.x - q.x * v.z)
  let tz := 2 * (q.x * v.y - q.y * v.x)
  ⟨v.x + q.w * tx + q.y * tz - q.z * ty,
   v.y + q.w * ty + q.z * tx - q.x * tz,
   v.z + q.w * tz + q.x * ty - q.y * tx⟩

/-- Model of `Vector3.applyAxisAngle`. -/
noncomputable def Vec3.applyAxisAngle (axis : Vec3) (angle : ℝ) (v : Vec3) : Vec3 :=
  quatRotate (Quat.setFromAxisAngle axis angle) v

/-- `new THREE.Color(0x8B4513)` (trunk color of `getPlantColor`). -/
noncomputable def trunkColor : Vec3 := ⟨139 / 255, 69 / 255, 19 / 255⟩

/-- `new THREE.Color(0xCD853F)` (branch color of `getPlantColor`). -/
noncomputable def branchColor : Vec3 := ⟨205 / 255, 133 / 255, 63 / 255⟩

/-- `new THREE.Color(0xD2691E)` (twig color of `getPlantColor`). -/
noncomputable def twigColor : Vec3 := ⟨210 / 255, 105 / 255, 30 / 255⟩

/-- Model of `Color.lerpColors` (componentwise linear interpolation). -/
def lerpColors (c1 c2 : Vec3) (alpha : ℝ) : Vec3 :=
  ⟨c1.x + (c2.x - c1.x) * alpha,
   c1.y + (c2.y - c1.y) * alpha,
   c1.z + (c2.z - c1.z) * alpha⟩

/-- three.js `clamp(value, 0, 1)`. -/
noncomputable def clamp01 (v : ℝ) : ℝ := max 0 (min 1 v)

/-- JavaScript truncation toward zero, as a real. -/
noncomputable def jsTrunc (v : ℝ) : ℝ := if 0 ≤ v then (⌊v⌋ : ℝ) else (⌈v⌉ : ℝ)

/-- JavaScript remainder operator `n % m` (sign of the dividend). -/
noncomputable def jsMod (n m : ℝ) : ℝ := n - m * jsTrunc (n / m)

/-- three.js `euclideanModulo(n, m) = ((n % m) + m) % m`. -/
noncomputable def euclideanModulo (n m : ℝ) : ℝ := jsMod (jsMod n m + m) m

/-- Model of `Color.getHSL` (returns hue, saturation, lightness). -/
noncomputable def rgbToHSL (c : Vec3) : ℝ × ℝ × ℝ :=
  let r := c.x
  let g := c.y
  let b := c.z
  let mx := max r (max g b)
  let mn := min r (min g b)
  let lightness := (mn + mx) / 2
  if mn = mx then (0, 0, lightness)
  else
    let delta := mx - mn
    let saturation := if lightness ≤ 0.5 then delta / (mx + mn) else delta / (2 - mx - mn)
    let hue :=
      if mx = r then (g - b) / delta + (if g < b then 6 else 0)
      else if mx = g then (b - r) / delta + 2
      else (r - g) / delta + 4
    (hue / 6, saturation, lightness)

/-- three.js `hue2rgb` helper of `Color.setHSL`. -/
noncomputable def hue2rgb (p q t0 : ℝ) : ℝ :=
  let t1 := if t0 < 0 then t0 + 1 else t0
  let t := if t1 > 1 then t1 - 1 else t1
  if t < 1 / 6 then p + (q - p) * 6 * t
  else if t < 1 / 2 then q
  else if t < 2 / 3 then p + (q - p) * 6 * (2 / 3 - t)
  else p

/-- Model of `Color.setHSL`. -/
noncomputable def hslToRGB (h0 s0 l0 : ℝ) : Vec3 :=
  let h := euclideanModulo h0 1
  let s := clamp01 s0
  let l := clamp01 l0
  if s = 0 then ⟨l, l, l⟩
  else
    let p := if l ≤ 0.5 then l * (1 + s) else l + s - l * s
    let q := 2 * l - p
    ⟨hue2rgb q p (h + 1 / 3), hue2rgb q p h, hue2rgb q p (h - 1 / 3)⟩

/-- Model of `Color.offsetHSL`: convert to HSL, add the offsets, convert back. -/
noncomputable def offsetHSL (c : Vec3) (dh ds dl : ℝ) : Vec3 :=
  let hsl := rgbToHSL c
  hslToRGB (hsl.1 + dh) (hsl.2.1 + ds) (hsl.2.2 + dl)

/-- Embedding of `getPlantColor(depth, time)` from the source. -/
noncomputable def getPlantColor (depth time : ℝ) : Vec3 :=
  let t := min (depth / 5) 1
  let color :=
    if t < 0.3 then lerpColors trunkColor branchColor (t / 0.3)
    else lerpColors branchColor twigColor ((t - 0.3) / 0.7)
  let variation := Real.sin (time * 0.1 + depth) * 0.05
  offsetHSL color 0 0 variation

/-- The configuration record `SPATIAL_TREE_RULES` of the source.  The source
field holding the initial string is named `axiom` there; that identifier is
reserved here, so the field is called `seed`. -/
structure PlantConfig where
  seed : String
  rules : Char → Option String
  angle : ℝ
  length : ℝ
  iterations : ℕ
  lengthVariation : ℝ
  angleVariation : ℝ

/-- Embedding of the constant `SPATIAL_TREE_RULES`. -/
noncomputable def SPATIAL_TREE_RULES : PlantConfig :=
  { seed := "X"
    rules := fun c =>
      if c = 'X' then some "F+[[X]-X]-F[-FX]+X+F[+X]-X+F[+X]+X"
      else if c = 'F' then some "FF"
      else none
    angle := Real.pi / 6
    length := 0.08
    iterations := 4
    lengthVariation := 0.1
    angleVariation := 0.05 }

/-- One character of one rewrite generation: the source appends
`rules[char]` when `SPATIAL_TREE_RULES.rules[char]` is truthy (present AND a
non-empty string) and otherwise appends the character itself. -/
def expandChar (rules : Char → Option String) (c : Char) : String :=
  match rules c with
  | some r => if r = "" then String.singleton c else r
  | none => String.singleton c

/-- One rewrite generation: the inner `for (const char of currentString)`
loop of the expander, accumulating `newString` by appending. -/
def expandOnce (rules : Char → Option String) (s : String) : String :=
  s.data.foldl (fun acc c => acc ++ expandChar rules c) ""

/-- The expander loop `for (let i = 0; i < iterations; i++)`: apply
`expandOnce` the given number of times to the starting string. -/
def expandLS (rules : Char → Option String) (s : String) : ℕ → String
  | 0 => s
  | n + 1 => expandOnce rules (expandLS rules s n)

/-- The interface `TurtleState` of the source. -/
@[ext] structure TurtleState where
  position : Vec3
  direction : Vec3
  length : ℝ
  angle : ℝ
  color : Vec3
  radius : ℝ
  depth : ℝ

/-- One emitted branch: the `THREE.Mesh` built in the `'F'` case, reduced to
the data the renderer consumes.  `radiusTop`, `radiusBottom` and `height` are
the first three arguments of the `CylinderGeometry` call; `position` and
`quaternion` are the mesh transform; `color` the material color. -/
structure BranchDesc where
  radiusTop : ℝ
  radiusBottom : ℝ
  height : ℝ
  position : Vec3
  quaternion : Quat
  color : Vec3

/-- World-space center of the cylinder cap carrying `radiusBottom` (local
point `(0, -height/2, 0)` pushed through the mesh transform). -/
noncomputable def BranchDesc.bottomCenter (b : BranchDesc) : Vec3 :=
  Vec3.add b.position (quatRotate b.quaternion ⟨0, -(b.height / 2), 0⟩)

/-- World-space center of the cylinder cap carrying `radiusTop` (local point
`(0, height/2, 0)` pushed through the mesh transform). -/
noncomputable def BranchDesc.topCenter (b : BranchDesc) : Vec3 :=
  Vec3.add b.position (quatRotate b.quaternion ⟨0, b.height / 2, 0⟩)

/-- The rotation axis computed for an `'F'` branch:
`axis.crossVectors(up, turtle.direction).normalize()` with `up = (0,1,0)`. -/
noncomputable def branchAxis (direction : Vec3) : Vec3 :=
  Vec3.normalize (Vec3.cross ⟨0, 1, 0⟩ direction)

/-- The orientation quaternion computed for an `'F'` branch:
`setFromAxisAngle(axis, acos(up.dot(direction)))`. -/
noncomputable def branchQuat (direction : Vec3) : Quat :=
  Quat.setFromAxisAngle (branchAxis direction) (Real.arccos (Vec3.dot ⟨0, 1, 0⟩ direction))

/-- Result of processing one symbol (or a whole string): the live turtle, the
stack, the branches emitted, and the `Math.random` call counter. -/
structure StepRes where
  st : TurtleState
  stk : List TurtleState
  out : List BranchDesc
  k : ℕ

/-- Embedding of one iteration of the interpreter `switch` in
`generatePlantGeometry`.  `rho` is the injectable `Math.random` stream and `k`
the number of calls made so far; each case consumes its samples in source
order.  The stack is a Lean list used LIFO (head = most recently pushed);
push/pop deep-copy in the source, which is value semantics here. -/
noncomputable def stepSym (cfg : PlantConfig) (time : ℝ) (rho : ℕ → ℝ) (c : Char)
    (st : TurtleState) (stk : List TurtleState) (k : ℕ) : StepRes :=
  if c = 'F' then
    let startPos := st.position
    let lengthVar := 1 + (rho k - 0.5) * cfg.lengthVariation
    let actualLength := st.length * lengthVar
    let newPos := Vec3.add st.position (Vec3.smul actualLength st.direction)
    let newColor := getPlantColor st.depth time
    let br : BranchDesc :=
      { radiusTop := st.radius * 0.8
        radiusBottom := st.radius
        height := actualLength
        position := Vec3.add startPos (Vec3.smul (actualLength * 0.5) st.direction)
        quaternion := branchQuat st.direction
        color := newColor }
    ⟨{ st with position := newPos, color := newColor }, stk, [br], k + 1⟩
  else if c = '+' then
    let angleVar := (rho k - 0.5) * cfg.angleVariation
    let actualAngle := st.angle + angleVar
    let axis := Vec3.normalize ⟨rho (k + 1) - 0.5, rho (k + 2) - 0.5, rho (k + 3) - 0.5⟩
    ⟨{ st with direction := Vec3.applyAxisAngle axis actualAngle st.direction,
               depth := st.depth + 0.1 }, stk, [], k + 4⟩
  else if c = '-' then
    let angleVar := (rho k - 0.5) * cfg.angleVariation
    let actualAngle := st.angle + angleVar
    let axis := Vec3.normalize ⟨rho (k + 1) - 0.5, rho (k + 2) - 0.5, rho (k + 3) - 0.5⟩
    ⟨{ st with direction := Vec3.applyAxisAngle axis (-actualAngle) st.direction,
               depth := st.depth + 0.1 }, stk, [], k + 4⟩
  else if c = '[' then
    let st1 := { st with length := st.length * 0.7, radius := st.radius * 0.7,
                         depth := st.depth + 0.2 }
    let sv : Vec3 := ⟨(rho k - 0.5) * 0.3, (rho (k + 1) - 0.5) * 0.3, (rho (k + 2) - 0.5) * 0.3⟩
    ⟨{ st1 with direction := Vec3.normalize (Vec3.add st1.direction sv) }, st :: stk, [], k + 3⟩
  else if c = ']' then
    match stk with
    | [] => ⟨{ st with depth := st.depth - 0.2 }, [], [], k⟩
    | top :: rest => ⟨{ top with depth := top.depth - 0.2 }, rest, [], k⟩
  else
    ⟨st, stk, [], k⟩

/-- The interpreter traversal `for (const char of currentString)`, threading
turtle, stack and counter and concatenating the emitted branches. -/
noncomputable def runAux (cfg : PlantConfig) (time : ℝ) (rho : ℕ → ℝ) :
    List Char → TurtleState → List TurtleState → ℕ → StepRes
  | [], st, stk, k => ⟨st, stk, [], k⟩
  | c :: cs, st, stk, k =>
    let r := stepSym cfg time rho c st stk k
    let rest := runAux cfg time rho cs r.st r.stk r.k
    ⟨rest.st, rest.stk, r.out ++ rest.out, rest.k⟩

/-- The initial turtle of `generatePlantGeometry` (the literal
`new THREE.Color(0x8B4513)` equals `trunkColor`). -/
noncomputable def initTurtle : TurtleState :=
  { position := ⟨0, 0, 0⟩
    direction := ⟨0, 1, 0⟩
    length := SPATIAL_TREE_RULES.length
    angle := SPATIAL_TREE_RULES.angle
    color := trunkColor
    radius := 0.02
    depth := 0 }

/-- Embedding of `generatePlantGeometry(time)`: expand the grammar, then run
the interpreter once over the expanded string. -/
noncomputable def generatePlantGeometry (time : ℝ) (rho : ℕ → ℝ) : List BranchDesc :=
  (runAux SPATIAL_TREE_RULES time rho
    (expandLS SPATIAL_TREE_RULES.rules SPATIAL_TREE_RULES.seed SPATIAL_TREE_RULES.iterations).data
    initTurtle [] 0).out

/-- `TurtleState` as stored in the mutable JS heap: the three `THREE` objects
(`position`, `direction`, `color`) are references into a store of `Vec3`
cells, the scalar fields are plain values.  This models the aliasing
behaviour of `TurtleStack` (class at lines 29-57 of the source). -/
structure RState where
  posRef : ℕ
  dirRef : ℕ
  colorRef : ℕ
  length : ℝ
  angle : ℝ
  radius : ℝ
  depth : ℝ

/-- The mutable store: a map from cell addresses to `Vec3` values together
with the next fresh address. -/
structure Heap where
  store : ℕ → Vec3
  next : ℕ

/-- Allocate a fresh cell holding `v` (what `Vector3.clone` / `Color.clone`
does): returns the fresh address and the grown heap. -/
def Heap.alloc (h : Heap) (v : Vec3) : ℕ × Heap :=
  (h.next, ⟨fun i => if i = h.next then v else h.store i, h.next + 1⟩)

/-- Overwrite one cell (a mutation of a `THREE` object through a reference). -/
def Heap.write (h : Heap) (r : ℕ) (v : Vec3) : Heap :=
  ⟨fun i => if i = r then v else h.store i, h.next⟩

/-- The field-by-field copy made by both `TurtleStack.push` and
`TurtleStack.pop`: clone the three object fields into fresh cells, copy the
scalars. -/
def cloneState (h : Heap) (s : RState) : RState × Heap :=
  let a1 := h.alloc (h.store s.posRef)
  let a2 := a1.2.alloc (a1.2.store s.dirRef)
  let a3 := a2.2.alloc (a2.2.store s.colorRef)
  ({ s with posRef := a1.1, dirRef := a2.1, colorRef := a3.1 }, a3.2)

/-- `TurtleStack.push`: push a clone of the argument.  The JS array grows at
the end and pops from the end; the Lean list keeps the most recent entry at
the head, which is the same LIFO discipline. -/
def stackPush (h : Heap) (stk : List RState) (s : RState) : List RState × Heap :=
  let c := cloneState h s
  (c.1 :: stk, c.2)

/-- `TurtleStack.pop`: `null` (here `none`) on the empty stack, else remove
the most recent entry and return a clone of it. -/
def stackPop (h : Heap) (stk : List RState) : Option RState × List RState × Heap :=
  match stk with
  | [] => (none, [], h)
  | top :: rest =>
    let c := cloneState h top
    (some c.1, rest, c.2)

/-- The object references held by a state. -/
def stateRefs (s : RState) : List ℕ := [s.posRef, s.dirRef, s.colorRef]

/-- A state is valid in a heap when all its references are allocated. -/
def ValidState (h : Heap) (s : RState) : Prop :=
  s.posRef < h.next ∧ s.dirRef < h.next ∧ s.colorRef < h.next

/-- Dereference a heap state into a plain `TurtleState` value (the
observable contents of all seven fields). -/
def readState (h : Heap) (s : RState) : TurtleState :=
  { position := h.store s.posRef
    direction := h.store s.dirRef
    length := s.length
    angle := s.angle
    color := h.store s.colorRef
    radius := s.radius
    depth := s.depth }

/-- Variant of the interpreter step for claim C2: identical to `stepSym`
except that the per-turn rotation axis of `'+'`/`'-'` is the fixed parameter
`fixedAxis` instead of being sampled (so those cases consume only the angle
jitter sample).  All other cases are exactly `stepSym`. -/
noncomputable def stepSymFA (cfg : PlantConfig) (time : ℝ) (fixedAxis : Vec3) (rho : ℕ → ℝ)
    (c : Char) (st : TurtleState) (stk : List TurtleState) (k : ℕ) : StepRes :=
  if c = '+' then
    let angleVar := (rho k - 0.5) * cfg.angleVariation
    let actualAngle := st.angle + angleVar
    ⟨{ st with direction := Vec3.applyAxisAngle fixedAxis actualAngle st.direction,
               depth := st.depth + 0.1 }, stk, [], k + 1⟩
  else if c = '-' then
    let angleVar := (rho k - 0.5) * cfg.angleVariation
    let actualAngle := st.angle + angleVar
    ⟨{ st with direction := Vec3.applyAxisAngle fixedAxis (-actualAngle) st.direction,
               depth := st.depth + 0.1 }, stk, [], k + 1⟩
  else stepSym cfg time rho c st stk k

/-- Traversal built on `stepSymFA` (the interpreter with the per-turn
rotation axis fixed instead of sampled). -/
noncomputable def runAuxFA (cfg : PlantConfig) (time : ℝ) (fixedAxis : Vec3) (rho : ℕ → ℝ) :
    List Char → TurtleState → List TurtleState → ℕ → StepRes
  | [], st, stk, k => ⟨st, stk, [], k⟩
  | c :: cs, st, stk, k =>
    let r := stepSymFA cfg time fixedAxis rho c st stk k
    let rest := runAuxFA cfg time fixedAxis rho cs r.st r.stk r.k
    ⟨rest.st, rest.stk, r.out ++ rest.out, rest.k⟩

/-- Nondegeneracy of the random draws made by one step, as hypothesised by
claim C10: the sampled rotation axis of a turn is nonzero before it is
normalized, and the perturbed direction sum at a branch save is nonzero. -/
def StepNondeg (rho : ℕ → ℝ) (c : Char) (st : TurtleState) (k : ℕ) : Prop :=
  (c = '+' ∨ c = '-' →
    (⟨rho (k + 1) - 0.5, rho (k + 2) - 0.5, rho (k + 3) - 0.5⟩ : Vec3) ≠ ⟨0, 0, 0⟩) ∧
  (c = '[' →
    Vec3.add st.direction
      ⟨(rho k - 0.5) * 0.3, (rho (k + 1) - 0.5) * 0.3, (rho (k + 2) - 0.5) * 0.3⟩ ≠ ⟨0, 0, 0⟩)

/-- Rule mapping used by the C1 counterexample: a rule that maps `X` to the
empty string. -/
def emptyRuleMap : Char → Option String := fun c => if c = 'X' then some "" else none

/-- The program configuration with both random-variation factors set to
zero, as hypothesised by claim C2. -/
noncomputable def SpatZeroVar : PlantConfig :=
  { SPATIAL_TREE_RULES with lengthVariation := 0, angleVariation := 0 }

/-! ### Basic expansion lemmas -/

/-- Folding string appends equals prepending the accumulator to the
flattened per-character replacements. -/
lemma foldl_append_data (f : Char → String) :
    ∀ (l : List Char) (a : String),
      (l.foldl (fun acc c => acc ++ f c) a).data =
        a.data ++ (l.map fun c => (f c).data).flatten := by
  intro l
  induction l with
  | nil => intro a; simp
  | cons c cs ih =>
    intro a
    simp only [List.foldl_cons, ih, List.map_cons, List.flatten_cons, String.data_append,
      List.append_assoc]

/-- One rewrite generation concatenates the per-character replacements in
left-to-right order. -/
lemma expandOnce_data (rules : Char → Option String) (s : String) :
    (expandOnce rules s).data = (s.data.map fun c => (expandChar rules c).data).flatten := by
  simpa using foldl_append_data (expandChar rules) s.data ""

/-- The replacement of a single character is never the empty string: a
present-but-empty rule is falsy in JS and the character is kept. -/
lemma expandChar_data_ne_nil (rules : Char → Option String) (c : Char) :
    (expandChar rules c).data ≠ [] := by
  unfold expandChar
  cases hr : rules c with
  | none => simp [String.singleton]
  | some r =>
    by_cases h : r = ""
    · simp [h, String.singleton]
    · simpa [h] using fun hd => h (String.ext hd)

/-- A flatten of nonempty lists is at least as long as the outer list. -/
lemma length_le_length_flatten (L : List (List Char)) (h : ∀ x ∈ L, x ≠ []) :
    L.length ≤ L.flatten.length := by
  induction L with
  | nil => simp
  | cons x xs ih =>
    have hx : 1 ≤ x.length := List.length_pos.mpr (h x (by simp))
    have hxs : xs.length ≤ xs.flatten.length := ih fun y hy => h y (by simp [hy])
    simp only [List.flatten_cons, List.length_append, List.length_cons]
    omega

/-- One rewrite generation never shrinks the string. -/
lemma length_le_expandOnce (rules : Char → Option String) (s : String) :
    s.length ≤ (expandOnce rules s).length := by
  have h := length_le_length_flatten (s.data.map fun c => (expandChar rules c).data)
    (by
      intro x hx
      rcases List.mem_map.mp hx with ⟨c, _, rfl⟩
      exact expandChar_data_ne_nil rules c)
  calc s.length = s.data.length := rfl
    _ = (s.data.map fun c => (expandChar rules c).data).length := by simp
    _ ≤ (s.data.map fun c => (expandChar rules c).data).flatten.length := h
    _ = (expandOnce rules s).length := by rw [← expandOnce_data]; rfl

/-! ### Claim C1 (corrected) -/

/-- C1 counterexample: with the rule mapping `{X → ""}` (a rule for `X`
exists) the claim predicts that one iteration on `"X"` yields `""`, but the
code keeps the character because `rules[char]` is falsy for the empty
string: the result is `"X"`, which differs from `""`. -/
theorem c1_counterexample :
    expandLS emptyRuleMap "X" 1 = "X" ∧ ("X" : String) ≠ "" := by
  constructor
  · rfl
  · decide

/-- C1 amended: the expander is a pure deterministic function of
(axiom, rules, iterations); each iteration replaces every character `c` by
`rules[c]` when a NON-EMPTY rule for `c` exists (an empty-string rule is
falsy in JS and behaves as absent) and keeps `c` unchanged otherwise,
concatenating the replacements left to right; for axiom `"X"` with rules
`{X → "F", F → "FF"}` and 2 iterations the result is `"FF"`, and 0
iterations returns the axiom unchanged. -/
theorem c1_amended_expansion :
    (∀ (rules : Char → Option String) (s : String),
      (expandOnce rules s).data =
        (s.data.map fun c =>
          match rules c with
          | some r => if r = "" then [c] else r.data
          | none => [c]).flatten) ∧
    expandLS (fun c => if c = 'X' then some "F" else if c = 'F' then some "FF" else none)
      "X" 2 = "FF" ∧
    (∀ (rules : Char → Option String) (s : String), expandLS rules s 0 = s) := by
  refine ⟨?_, by rfl, fun rules s => rfl⟩
  intro rules s
  rw [expandOnce_data]
  congr 1
  refine List.map_congr_left fun c _ => ?_
  unfold expandChar
  cases rules c with
  | none => rfl
  | some r =>
    by_cases h : r = "" <;> simp [h, String.singleton]

/-! ### Claim C6 (confirmed) -/

/-- C6: processing `]` with an empty stack does not fail (the step is a
total function) and leaves position, direction, length and radius unchanged
while decrementing depth by exactly 0.2; with a non-empty stack the live
state is fully replaced by the popped snapshot and then depth is
decremented by 0.2. -/
theorem c6_bracket_restore :
    (∀ (cfg : PlantConfig) (time : ℝ) (rho : ℕ → ℝ) (st : TurtleState) (k : ℕ),
      (stepSym cfg time rho ']' st [] k).st.position = st.position ∧
      (stepSym cfg time rho ']' st [] k).st.direction = st.direction ∧
      (stepSym cfg time rho ']' st [] k).st.length = st.length ∧
      (stepSym cfg time rho ']' st [] k).st.radius = st.radius ∧
      (stepSym cfg time rho ']' st [] k).st.depth = st.depth - 0.2 ∧
      (stepSym cfg time rho ']' st [] k).stk = [] ∧
      (stepSym cfg time rho ']' st [] k).out = []) ∧
    (∀ (cfg : PlantConfig) (time : ℝ) (rho : ℕ → ℝ) (st top : TurtleState)
        (rest : List TurtleState) (k : ℕ),
      (stepSym cfg time rho ']' st (top :: rest) k).st =
        { top with depth := top.depth - 0.2 } ∧
      (stepSym cfg time rho ']' st (top :: rest) k).stk = rest ∧
      (stepSym cfg time rho ']' st (top :: rest) k).out = []) := by
  constructor
  · intro cfg time rho st k
    refine ⟨?_, ?_, ?_, ?_, ?_, ?_, ?_⟩ <;> simp +decide [stepSym]
  · intro cfg time rho st top rest k
    refine ⟨?_, ?_, ?_⟩ <;> simp +decide [stepSym]

/-! ### Claim C8 (confirmed) -/

/-- Each interpreter step emits exactly one branch on `F` and none on any
other symbol (including `+`, `-`, `[`, `]` and unknown characters). -/
lemma stepSym_out_length (cfg : PlantConfig) (time : ℝ) (rho : ℕ → ℝ) (c : Char)
    (st : TurtleState) (stk : List TurtleState) (k : ℕ) :
    (stepSym cfg time rho c st stk k).out.length = if c = 'F' then 1 else 0 := by
  by_cases hF : c = 'F'
  · simp [stepSym, hF]
  · by_cases hp : c = '+'
    · simp [stepSym, hF, hp]
    · by_cases hm : c = '-'
      · simp [stepSym, hF, hp, hm]
      · by_cases hb : c = '['
        · simp [stepSym, hF, hp, hm, hb]
        · by_cases hk : c = ']'
          · cases stk <;> simp [stepSym, hF, hp, hm, hb, hk]
          · simp [stepSym, hF, hp, hm, hb, hk]

/-- The traversal emits one branch per `F` in the consumed character list. -/
lemma runAux_out_length (cfg : PlantConfig) (time : ℝ) (rho : ℕ → ℝ) :
    ∀ (cs : List Char) (st : TurtleState) (stk : List TurtleState) (k : ℕ),
      (runAux cfg time rho cs st stk k).out.length = cs.count 'F' := by
  intro cs
  induction cs with
  | nil => intro st stk k; simp [runAux]
  | cons c cs ih =>
    intro st stk k
    simp only [runAux, List.length_append, ih, stepSym_out_length, List.count_cons]
    by_cases hF : c = 'F' <;> simp [hF] <;> omega

/-- C8: the number of Branch Descriptors produced by one full traversal
equals the number of `F` characters in the consumed string; in particular
this holds for the full program run `generatePlantGeometry`. -/
theorem c8_branch_count :
    (∀ (cfg : PlantConfig) (time : ℝ) (rho : ℕ → ℝ) (s : String) (st : TurtleState)
        (stk : List TurtleState) (k : ℕ),
      (runAux cfg time rho s.data st stk k).out.length = s.data.count 'F') ∧
    (∀ (time : ℝ) (rho : ℕ → ℝ),
      (generatePlantGeometry time rho).length =
        (expandLS SPATIAL_TREE_RULES.rules SPATIAL_TREE_RULES.seed
          SPATIAL_TREE_RULES.iterations).data.count 'F') := by
  refine ⟨fun cfg time rho s st stk k => runAux_out_length cfg time rho s.data st stk k,
    fun time rho => ?_⟩
  unfold generatePlantGeometry
  exact runAux_out_length _ _ _ _ _ _ _

/-! ### Claim C9 (confirmed) -/

/-- C9: for the program's own axiom and rule mapping, expansion is
length-monotonic in the iteration count. -/
theorem c9_length_monotone :
    ∀ n : ℕ,
      (expandLS SPATIAL_TREE_RULES.rules SPATIAL_TREE_RULES.seed n).length ≤
        (expandLS SPATIAL_TREE_RULES.rules SPATIAL_TREE_RULES.seed (n + 1)).length := by
  intro n
  exact length_le_expandOnce SPATIAL_TREE_RULES.rules _

/-! ### Geometry lemmas -/

/-- Normalizing the zero vector returns the zero vector (three.js divides by
`length() || 1`). -/
lemma vec_normalize_zero : Vec3.normalize ⟨0, 0, 0⟩ = ⟨0, 0, 0⟩ := by
  norm_num [Vec3.normalize, Vec3.len, Vec3.normSq, Vec3.smul, Real.sqrt_zero]

/-- Rotation by the identity quaternion is the identity. -/
lemma quatRotate_id (v : Vec3) : quatRotate ⟨0, 0, 0, 1⟩ v = v := by
  refine Vec3.ext ?_ ?_ ?_ <;> simp [quatRotate]

/-- `quatRotate q` is homogeneous in the vector argument. -/
lemma quatRotate_smul (q : Quat) (c : ℝ) (v : Vec3) :
    quatRotate q (Vec3.smul c v) = Vec3.smul c (quatRotate q v) := by
  refine Vec3.ext ?_ ?_ ?_ <;> simp [quatRotate, Vec3.smul] <;> ring

/-- The branch axis degenerates to the zero vector whenever the direction is
parallel to the reference up vector. -/
lemma branchAxis_up : branchAxis ⟨0, 1, 0⟩ = ⟨0, 0, 0⟩ := by
  have h : Vec3.cross ⟨0, 1, 0⟩ ⟨0, 1, 0⟩ = (⟨0, 0, 0⟩ : Vec3) := by
    norm_num [Vec3.cross]
  rw [branchAxis, h, vec_normalize_zero]

/-- The branch axis degenerates to the zero vector whenever the direction is
anti-parallel to the reference up vector. -/
lemma branchAxis_down : branchAxis ⟨0, -1, 0⟩ = ⟨0, 0, 0⟩ := by
  have h : Vec3.cross ⟨0, 1, 0⟩ ⟨0, -1, 0⟩ = (⟨0, 0, 0⟩ : Vec3) := by
    norm_num [Vec3.cross]
  rw [branchAxis, h, vec_normalize_zero]

/-- For the up direction the angle is `acos 1 = 0` and the computed
quaternion happens to be the identity. -/
lemma branchQuat_up : branchQuat ⟨0, 1, 0⟩ = ⟨0, 0, 0, 1⟩ := by
  have hdot : Vec3.dot ⟨0, 1, 0⟩ ⟨0, 1, 0⟩ = 1 := by norm_num [Vec3.dot]
  rw [branchQuat, hdot, Real.arccos_one, branchAxis_up]
  unfold Quat.setFromAxisAngle
  norm_num

/-- For the anti-parallel direction the angle is `acos (-1) = π` and the
computed quaternion is the all-zero quadruple: not a rotation at all. -/
lemma branchQuat_down : branchQuat ⟨0, -1, 0⟩ = ⟨0, 0, 0, 0⟩ := by
  have hdot : Vec3.dot ⟨0, 1, 0⟩ ⟨0, -1, 0⟩ = -1 := by norm_num [Vec3.dot]
  rw [branchQuat, hdot, Real.arccos_neg_one, branchAxis_down]
  unfold Quat.setFromAxisAngle
  norm_num [Real.sin_pi_div_two, Real.cos_pi_div_two]

/-- Closed form of the `'F'` case of `stepSym`. -/
lemma stepSym_F (cfg : PlantConfig) (time : ℝ) (rho : ℕ → ℝ) (st : TurtleState)
    (stk : List TurtleState) (k : ℕ) :
    stepSym cfg time rho 'F' st stk k =
      ⟨{ st with
          position := Vec3.add st.position
            (Vec3.smul (st.length * (1 + (rho k - 0.5) * cfg.lengthVariation)) st.direction),
          color := getPlantColor st.depth time },
        stk,
        [{ radiusTop := st.radius * 0.8
           radiusBottom := st.radius
           height := st.length * (1 + (rho k - 0.5) * cfg.lengthVariation)
           position := Vec3.add st.position
             (Vec3.smul (st.length * (1 + (rho k - 0.5) * cfg.lengthVariation) * 0.5) st.direction)
           quaternion := branchQuat st.direction
           color := getPlantColor st.depth time }],
        k + 1⟩ := by
  simp +decide [stepSym]

/-! ### Claim C3 (code bug) -/

/-- C3: the spec requires a defined fallback rotation axis when the turtle
direction is parallel or anti-parallel to up, but the code has none: the
computed axis is the normalized zero cross product, i.e. the zero vector
(three.js `normalize` maps the zero vector to itself), not a perpendicular
axis.  In the parallel case the angle is 0 so the quaternion accidentally
stays the identity, but in the anti-parallel case the emitted branch's
quaternion is the all-zero quadruple, whose squared norm is 0 — a degenerate
orientation, exactly what the claim says is prevented. -/
theorem c3_degenerate_axis_code_bug :
    branchAxis ⟨0, 1, 0⟩ = ⟨0, 0, 0⟩ ∧
    branchAxis ⟨0, -1, 0⟩ = ⟨0, 0, 0⟩ ∧
    branchQuat ⟨0, 1, 0⟩ = ⟨0, 0, 0, 1⟩ ∧
    branchQuat ⟨0, -1, 0⟩ = ⟨0, 0, 0, 0⟩ ∧
    Quat.normSq ⟨0, 0, 0, 0⟩ = 0 ∧
    ((stepSym SPATIAL_TREE_RULES 0 (fun _ => 0.5) 'F'
        { initTurtle with direction := ⟨0, -1, 0⟩ } [] 0).out.map fun b => b.quaternion) =
      [⟨0, 0, 0, 0⟩] := by
  refine ⟨branchAxis_up, branchAxis_down, branchQuat_up, branchQuat_down,
    by norm_num [Quat.normSq], ?_⟩
  rw [stepSym_F]
  simp [branchQuat_down]

/-! ### Claim C4 (corrected) -/

/-- C4 counterexample: for the first `F` of a run (turtle at the origin
pointing up, radius 0.02, no length jitter) the emitted cylinder cap that
sits at the turtle's pre-move position `(0,0,0)` — the near end — carries
`radiusBottom = 0.02`, the full radius, while the cap at the post-move
position `(0, 0.08, 0)` — the far end — carries `radiusTop = 0.016`; the
claim's near-end radius `radius × 0.8 = 0.016` differs from the actual
near-end radius `0.02`. -/
theorem c4_counterexample :
    ((stepSym SPATIAL_TREE_RULES 0 (fun _ => 0.5) 'F' initTurtle [] 0).out.map
        fun b => (b.bottomCenter, b.radiusBottom, b.topCenter, b.radiusTop)) =
      [((⟨0, 0, 0⟩ : Vec3), (0.02 : ℝ), (⟨0, 0.08, 0⟩ : Vec3), (0.016 : ℝ))] ∧
    initTurtle.position = ⟨0, 0, 0⟩ ∧
    ((0.02 : ℝ) ≠ 0.02 * 0.8) := by
  refine ⟨?_, rfl, by norm_num⟩
  rw [stepSym_F]
  simp only [List.map_cons, List.map_nil, BranchDesc.bottomCenter, BranchDesc.topCenter]
  have hdir : initTurtle.direction = (⟨0, 1, 0⟩ : Vec3) := rfl
  rw [hdir, branchQuat_up, quatRotate_id, quatRotate_id]
  simp only [initTurtle, SPATIAL_TREE_RULES]
  norm_num [Vec3.add, Vec3.smul]

/-- C4 amended: the cylinder taper is the other way around — the cap at the
turtle's pre-move position (the near end) carries the full current radius and
the cap at the post-move position (the far end) carries `radius × 0.8`;
processing `F` changes position (and color) but leaves direction, length,
radius and depth unchanged.  The geometric identification of the ends uses
the hypothesis that the computed quaternion actually maps the reference up
vector onto the turtle direction (true in all non-degenerate cases). -/
theorem c4_amended_taper (cfg : PlantConfig) (time : ℝ) (rho : ℕ → ℝ) (st : TurtleState)
    (stk : List TurtleState) (k : ℕ)
    (hq : quatRotate (branchQuat st.direction) ⟨0, 1, 0⟩ = st.direction) :
    ∃ b : BranchDesc,
      (stepSym cfg time rho 'F' st stk k).out = [b] ∧
      b.radiusBottom = st.radius ∧
      b.radiusTop = st.radius * 0.8 ∧
      b.bottomCenter = st.position ∧
      b.topCenter = (stepSym cfg time rho 'F' st stk k).st.position ∧
      (stepSym cfg time rho 'F' st stk k).st.direction = st.direction ∧
      (stepSym cfg time rho 'F' st stk k).st.length = st.length ∧
      (stepSym cfg time rho 'F' st stk k).st.radius = st.radius ∧
      (stepSym cfg time rho 'F' st stk k).st.depth = st.depth := by
  rw [stepSym_F]
  refine ⟨_, rfl, rfl, rfl, ?_, ?_, rfl, rfl, rfl, rfl⟩
  · show Vec3.add _ (quatRotate _ _) = st.position
    have h1 : (⟨0, -(st.length * (1 + (rho k - 0.5) * cfg.lengthVariation) / 2), 0⟩ : Vec3) =
        Vec3.smul (-(st.length * (1 + (rho k - 0.5) * cfg.lengthVariation) * 0.5)) ⟨0, 1, 0⟩ := by
      refine Vec3.ext ?_ ?_ ?_ <;> simp [Vec3.smul] <;> ring
    rw [h1, quatRotate_smul, hq]
    refine Vec3.ext ?_ ?_ ?_ <;> simp [Vec3.add, Vec3.smul] <;> ring
  · show Vec3.add _ (quatRotate _ _) = _
    have h1 : (⟨0, st.length * (1 + (rho k - 0.5) * cfg.lengthVariation) / 2, 0⟩ : Vec3) =
        Vec3.smul (st.length * (1 + (rho k - 0.5) * cfg.lengthVariation) * 0.5) ⟨0, 1, 0⟩ := by
      refine Vec3.ext ?_ ?_ ?_ <;> simp [Vec3.smul] <;> ring
    rw [h1, quatRotate_smul, hq]
    refine Vec3.ext ?_ ?_ ?_ <;> simp [Vec3.add, Vec3.smul] <;> ring

/-- Witness for `c4_amended_taper` at the first `F` of a run. -/
theorem c4_amended_taper_witness :
    (quatRotate (branchQuat initTurtle.direction) ⟨0, 1, 0⟩ = initTurtle.direction) ∧
    (∃ b : BranchDesc,
      (stepSym SPATIAL_TREE_RULES 0 (fun _ => 0.5) 'F' initTurtle [] 0).out = [b] ∧
      b.radiusBottom = initTurtle.radius ∧
      b.radiusTop = initTurtle.radius * 0.8 ∧
      b.bottomCenter = initTurtle.position ∧
      b.topCenter = (stepSym SPATIAL_TREE_RULES 0 (fun _ => 0.5) 'F' initTurtle [] 0).st.position ∧
      (stepSym SPATIAL_TREE_RULES 0 (fun _ => 0.5) 'F' initTurtle [] 0).st.direction =
        initTurtle.direction ∧
      (stepSym SPATIAL_TREE_RULES 0 (fun _ => 0.5) 'F' initTurtle [] 0).st.length =
        initTurtle.length ∧
      (stepSym SPATIAL_TREE_RULES 0 (fun _ => 0.5) 'F' initTurtle [] 0).st.radius =
        initTurtle.radius ∧
      (stepSym SPATIAL_TREE_RULES 0 (fun _ => 0.5) 'F' initTurtle [] 0).st.depth =
        initTurtle.depth) :=
  have hq : quatRotate (branchQuat initTurtle.direction) ⟨0, 1, 0⟩ = initTurtle.direction := by
    have hdir : initTurtle.direction = (⟨0, 1, 0⟩ : Vec3) := rfl
    rw [hdir, branchQuat_up, quatRotate_id]
  ⟨hq, c4_amended_taper SPATIAL_TREE_RULES 0 (fun _ => 0.5) initTurtle [] 0 hq⟩

/-! ### Claim C5 (corrected) -/

/-- C5 counterexample: for the first `F` of a run (turtle at the origin,
direction up, actual length 0.08) the recorded descriptor position is
`(0, 0.04, 0)`, which is not the turtle's pre-move position `(0,0,0)`. -/
theorem c5_counterexample :
    ((stepSym SPATIAL_TREE_RULES 0 (fun _ => 0.5) 'F' initTurtle [] 0).out.map
        fun b => b.position) = [(⟨0, 0.04, 0⟩ : Vec3)] ∧
    initTurtle.position = ⟨0, 0, 0⟩ ∧
    ((⟨0, 0.04, 0⟩ : Vec3) ≠ ⟨0, 0, 0⟩) := by
  refine ⟨?_, rfl, ?_⟩
  · rw [stepSym_F]
    simp only [List.map_cons, List.map_nil, initTurtle, SPATIAL_TREE_RULES]
    norm_num [Vec3.add, Vec3.smul]
  · intro h
    have := congrArg Vec3.y h
    norm_num at this

/-- C5 amended: the recorded position of every emitted Branch Descriptor is
the midpoint of the drawn segment — the turtle's pre-move position plus
direction × (actual length × 0.5), i.e. the average of the pre-move and
post-move positions — not the start point. -/
theorem c5_amended_midpoint (cfg : PlantConfig) (time : ℝ) (rho : ℕ → ℝ) (st : TurtleState)
    (stk : List TurtleState) (k : ℕ) :
    ((stepSym cfg time rho 'F' st stk k).out.map fun b => b.position) =
      [Vec3.smul (1 / 2)
        (Vec3.add st.position (stepSym cfg time rho 'F' st stk k).st.position)] := by
  rw [stepSym_F]
  simp only [List.map_cons, List.map_nil, List.cons.injEq, and_true]
  refine Vec3.ext ?_ ?_ ?_ <;> simp [Vec3.add, Vec3.smul] <;> ring

/-! ### Norm lemmas for the direction invariant -/

/-- Squared norms are nonnegative. -/
lemma normSq_nonneg (v : Vec3) : 0 ≤ v.normSq := by
  unfold Vec3.normSq
  nlinarith [mul_self_nonneg v.x, mul_self_nonneg v.y, mul_self_nonneg v.z]

/-- A nonzero vector has positive squared norm. -/
lemma normSq_pos_of_ne (v : Vec3) (h : v ≠ ⟨0, 0, 0⟩) : 0 < v.normSq := by
  rcases (normSq_nonneg v).lt_or_eq with hlt | heq
  · exact hlt
  · exfalso
    apply h
    have h0 : v.x * v.x + v.y * v.y + v.z * v.z = 0 := heq.symm
    have hx : v.x = 0 := by
      have : v.x * v.x = 0 := by nlinarith [mul_self_nonneg v.y, mul_self_nonneg v.z]
      exact mul_self_eq_zero.mp this
    have hy : v.y = 0 := by
      have : v.y * v.y = 0 := by nlinarith [mul_self_nonneg v.x, mul_self_nonneg v.z]
      exact mul_self_eq_zero.mp this
    have hz : v.z = 0 := by
      have : v.z * v.z = 0 := by nlinarith [mul_self_nonneg v.x, mul_self_nonneg v.y]
      exact mul_self_eq_zero.mp this
    exact Vec3.ext hx hy hz

/-- A nonzero vector has positive length. -/
lemma len_pos_of_ne (v : Vec3) (h : v ≠ ⟨0, 0, 0⟩) : 0 < v.len := by
  unfold Vec3.len
  exact Real.sqrt_pos.mpr (normSq_pos_of_ne v h)

/-- Squared norm of a scalar multiple. -/
lemma normSq_smul (c : ℝ) (v : Vec3) : (Vec3.smul c v).normSq = c * c * v.normSq := by
  unfold Vec3.smul Vec3.normSq
  ring

/-- Normalizing a nonzero vector yields a unit vector. -/
lemma normSq_normalize (v : Vec3) (h : v ≠ ⟨0, 0, 0⟩) : (Vec3.normalize v).normSq = 1 := by
  have hlen : 0 < v.len := len_pos_of_ne v h
  have hself : v.len * v.len = v.normSq := Real.mul_self_sqrt (normSq_nonneg v)
  unfold Vec3.normalize
  rw [if_neg hlen.ne', normSq_smul, ← hself]
  field_simp

/-- `setFromAxisAngle` on a unit axis yields a unit quaternion
(`(sin θ/2)² |axis|² + (cos θ/2)² = 1`). -/
lemma quat_unit_setFromAxisAngle (axis : Vec3) (θ : ℝ) (h : axis.normSq = 1) :
    (Quat.setFromAxisAngle axis θ).normSq = 1 := by
  simp only [Quat.setFromAxisAngle, Quat.normSq]
  unfold Vec3.normSq at h
  linear_combination (Real.sin (θ / 2)) ^ 2 * h + Real.sin_sq_add_cos_sq (θ / 2)

/-- Rotation by a unit quaternion preserves the squared norm. -/
lemma normSq_quatRotate (q : Quat) (v : Vec3) (h : q.normSq = 1) :
    (quatRotate q v).normSq = v.normSq := by
  simp only [quatRotate, Vec3.normSq]
  unfold Quat.normSq at h
  linear_combination
    (4 * (q.x * q.x + q.y * q.y + q.z * q.z) * (v.x * v.x + v.y * v.y + v.z * v.z) -
      4 * (q.x * v.x + q.y * v.y + q.z * v.z) ^ 2) * h

/-- `applyAxisAngle` with a unit axis preserves the squared norm. -/
lemma normSq_applyAxisAngle (axis : Vec3) (θ : ℝ) (v : Vec3) (h : axis.normSq = 1) :
    (Vec3.applyAxisAngle axis θ v).normSq = v.normSq := by
  unfold Vec3.applyAxisAngle
  exact normSq_quatRotate _ v (quat_unit_setFromAxisAngle axis θ h)

/-- Closed form of the `'+'` case of `stepSym`. -/
lemma stepSym_plus (cfg : PlantConfig) (time : ℝ) (rho : ℕ → ℝ) (st : TurtleState)
    (stk : List TurtleState) (k : ℕ) :
    stepSym cfg time rho '+' st stk k =
      ⟨{ st with
          direction := Vec3.applyAxisAngle
            (Vec3.normalize ⟨rho (k + 1) - 0.5, rho (k + 2) - 0.5, rho (k + 3) - 0.5⟩)
            (st.angle + (rho k - 0.5) * cfg.angleVariation) st.direction,
          depth := st.depth + 0.1 }, stk, [], k + 4⟩ := by
  simp +decide [stepSym]

/-- Closed form of the `'-'` case of `stepSym`. -/
lemma stepSym_minus (cfg : PlantConfig) (time : ℝ) (rho : ℕ → ℝ) (st : TurtleState)
    (stk : List TurtleState) (k : ℕ) :
    stepSym cfg time rho '-' st stk k =
      ⟨{ st with
          direction := Vec3.applyAxisAngle
            (Vec3.normalize ⟨rho (k + 1) - 0.5, rho (k + 2) - 0.5, rho (k + 3) - 0.5⟩)
            (-(st.angle + (rho k - 0.5) * cfg.angleVariation)) st.direction,
          depth := st.depth + 0.1 }, stk, [], k + 4⟩ := by
  simp +decide [stepSym]

/-- Closed form of the `'['` case of `stepSym`. -/
lemma stepSym_bracket (cfg : PlantConfig) (time : ℝ) (rho : ℕ → ℝ) (st : TurtleState)
    (stk : List TurtleState) (k : ℕ) :
    stepSym cfg time rho '[' st stk k =
      ⟨{ st with
          direction := Vec3.normalize (Vec3.add st.direction
            ⟨(rho k - 0.5) * 0.3, (rho (k + 1) - 0.5) * 0.3, (rho (k + 2) - 0.5) * 0.3⟩),
          length := st.length * 0.7,
          radius := st.radius * 0.7,
          depth := st.depth + 0.2 }, st :: stk, [], k + 3⟩ := by
  simp +decide [stepSym]

/-! ### Claim C10 (confirmed) -/

/-- C10: the initial direction `(0,1,0)` is unit, and every interpreter step
preserves the invariant that the live direction and every stacked direction
are unit vectors, provided the step's random draws are nondegenerate (the
sampled per-turn rotation axis is nonzero before normalization, and the
perturbed direction sum at a `[` is nonzero): `F` and empty-stack `]` leave
the direction unchanged, `+`/`-` rotate it around a normalized (hence unit)
axis, `[` renormalizes the perturbed sum, and a non-empty `]` restores a
direction that was unit when pushed. -/
theorem c10_direction_unit :
    initTurtle.direction.normSq = 1 ∧
    ∀ (cfg : PlantConfig) (time : ℝ) (rho : ℕ → ℝ) (c : Char) (st : TurtleState)
      (stk : List TurtleState) (k : ℕ),
      st.direction.normSq = 1 →
      (∀ e ∈ stk, e.direction.normSq = 1) →
      StepNondeg rho c st k →
      (stepSym cfg time rho c st stk k).st.direction.normSq = 1 ∧
      ∀ e ∈ (stepSym cfg time rho c st stk k).stk, e.direction.normSq = 1 := by
  constructor
  · norm_num [initTurtle, Vec3.normSq]
  intro cfg time rho c st stk k hd hstk hnd
  by_cases hF : c = 'F'
  · subst hF
    rw [stepSym_F]
    exact ⟨hd, hstk⟩
  by_cases hp : c = '+'
  · subst hp
    rw [stepSym_plus]
    refine ⟨?_, hstk⟩
    exact (normSq_applyAxisAngle _ _ _ (normSq_normalize _ (hnd.1 (Or.inl rfl)))).trans hd
  by_cases hm : c = '-'
  · subst hm
    rw [stepSym_minus]
    refine ⟨?_, hstk⟩
    exact (normSq_applyAxisAngle _ _ _ (normSq_normalize _ (hnd.1 (Or.inr rfl)))).trans hd
  by_cases hb : c = '['
  · subst hb
    rw [stepSym_bracket]
    refine ⟨normSq_normalize _ (hnd.2 rfl), ?_⟩
    intro e he
    rcases List.mem_cons.mp he with rfl | he
    · exact hd
    · exact hstk e he
  by_cases hk : c = ']'
  · subst hk
    cases stk with
    | nil => simp only [stepSym, hF, hp, hm, hb, if_neg, if_pos, reduceIte]; exact ⟨hd, by simp⟩
    | cons top rest =>
      simp only [stepSym, hF, hp, hm, hb, if_neg, if_pos, reduceIte]
      exact ⟨hstk top (by simp), fun e he => hstk e (by simp [he])⟩
  · simp only [stepSym, hF, hp, hm, hb, hk, if_neg, reduceIte]
    exact ⟨hd, hstk⟩

/-- Witness for `c10_direction_unit` at a concrete `'+'` step with a
concrete random stream whose sampled axis is nonzero. -/
theorem c10_direction_unit_witness :
    (initTurtle.direction.normSq = 1 ∧
      (∀ e ∈ ([] : List TurtleState), e.direction.normSq = 1) ∧
      StepNondeg (fun _ => 1) '+' initTurtle 0) ∧
    ((stepSym SPATIAL_TREE_RULES 0 (fun _ => 1) '+' initTurtle [] 0).st.direction.normSq = 1 ∧
      ∀ e ∈ (stepSym SPATIAL_TREE_RULES 0 (fun _ => 1) '+' initTurtle [] 0).stk,
        e.direction.normSq = 1) := by
  have h1 : initTurtle.direction.normSq = 1 := c10_direction_unit.1
  have h2 : ∀ e ∈ ([] : List TurtleState), e.direction.normSq = 1 := by simp
  have h3 : StepNondeg (fun _ => 1) '+' initTurtle 0 := by
    constructor
    · intro _ h
      have := congrArg Vec3.x h
      norm_num at this
    · intro h
      exact absurd h (by decide)
  exact ⟨⟨h1, h2, h3⟩,
    c10_direction_unit.2 SPATIAL_TREE_RULES 0 (fun _ => 1) '+' initTurtle [] 0 h1 h2 h3⟩

/-! ### Claim C2 (corrected) -/

/-- `stepSymFA` agrees with `stepSym` away from `'+'`/`'-'`. -/
lemma stepSymFA_of_ne (cfg : PlantConfig) (time : ℝ) (fixedAxis : Vec3) (rho : ℕ → ℝ)
    (c : Char) (st : TurtleState) (stk : List TurtleState) (k : ℕ)
    (h1 : c ≠ '+') (h2 : c ≠ '-') :
    stepSymFA cfg time fixedAxis rho c st stk k = stepSym cfg time rho c st stk k := by
  simp [stepSymFA, h1, h2]

/-- With both variation factors zero and the rotation axis fixed, one step on
any symbol other than `'['` does not depend on the random stream at all. -/
lemma stepSymFA_rho_irrel (cfg : PlantConfig) (time : ℝ) (fixedAxis : Vec3)
    (rho1 rho2 : ℕ → ℝ) (c : Char) (st : TurtleState) (stk : List TurtleState) (k : ℕ)
    (hlen : cfg.lengthVariation = 0) (hang : cfg.angleVariation = 0) (hc : c ≠ '[') :
    stepSymFA cfg time fixedAxis rho1 c st stk k =
      stepSymFA cfg time fixedAxis rho2 c st stk k := by
  by_cases hp : c = '+'
  · simp [stepSymFA, hp, hang]
  by_cases hm : c = '-'
  · simp [stepSymFA, hp, hm, hang]
  rw [stepSymFA_of_ne cfg time fixedAxis rho1 c st stk k hp hm,
    stepSymFA_of_ne cfg time fixedAxis rho2 c st stk k hp hm]
  by_cases hF : c = 'F'
  · simp [stepSym, hF, hlen]
  by_cases hk : c = ']'
  · cases stk <;> simp [stepSym, hF, hp, hm, hc, hk]
  · simp [stepSym, hF, hp, hm, hc, hk]

/-- C2 amended: with `lengthVariation = 0`, `angleVariation = 0` and the
per-turn rotation axis fixed instead of sampled, two runs on the same symbol
string produce identical results — turtle, stack, Branch Descriptor sequence
and counter — PROVIDED the string contains no `[`: the spatial direction
perturbation at `[` (components `±0.15`, hard-coded `0.3` scale) is sampled
independently of the two variation factors, so it is not silenced by setting
them to zero. -/
theorem c2_amended_determinism (cfg : PlantConfig) (time : ℝ) (fixedAxis : Vec3)
    (rho1 rho2 : ℕ → ℝ) (cs : List Char) (st : TurtleState) (stk : List TurtleState) (k : ℕ)
    (hlen : cfg.lengthVariation = 0) (hang : cfg.angleVariation = 0) (hbr : '[' ∉ cs) :
    runAuxFA cfg time fixedAxis rho1 cs st stk k =
      runAuxFA cfg time fixedAxis rho2 cs st stk k := by
  revert hbr
  induction cs generalizing st stk k with
  | nil => intro _; rfl
  | cons c cs ih =>
    intro hbr
    have hc : c ≠ '[' := fun h => hbr (h ▸ List.mem_cons_self c cs)
    have hcs : '[' ∉ cs := fun h => hbr (List.mem_cons_of_mem c h)
    simp only [runAuxFA]
    rw [stepSymFA_rho_irrel cfg time fixedAxis rho1 rho2 c st stk k hlen hang hc,
      ih _ _ _ hcs]

/-- Witness for `c2_amended_determinism`: a concrete `[`-free string, two
different concrete streams, equal outputs. -/
theorem c2_amended_determinism_witness :
    (SpatZeroVar.lengthVariation = 0 ∧ SpatZeroVar.angleVariation = 0 ∧
      '[' ∉ ['F', '+', 'F', '-', ']', 'X']) ∧
    runAuxFA SpatZeroVar 0 ⟨1, 0, 0⟩ (fun _ => 0.1) ['F', '+', 'F', '-', ']', 'X']
        initTurtle [] 0 =
      runAuxFA SpatZeroVar 0 ⟨1, 0, 0⟩ (fun _ => 0.8) ['F', '+', 'F', '-', ']', 'X']
        initTurtle [] 0 :=
  ⟨⟨rfl, rfl, by decide⟩,
    c2_amended_determinism SpatZeroVar 0 ⟨1, 0, 0⟩ (fun _ => 0.1) (fun _ => 0.8)
      ['F', '+', 'F', '-', ']', 'X'] initTurtle [] 0 rfl rfl (by decide)⟩

/-- Positions emitted by a `['[', 'F']` traversal of the fixed-axis
interpreter: the `[` shrinks length by 0.7 and perturbs the direction by the
sampled spatial variation before the `F` draws. -/
lemma runFA_bracket_F (cfg : PlantConfig) (time : ℝ) (ax : Vec3) (rho : ℕ → ℝ)
    (st : TurtleState) (stk : List TurtleState) (k : ℕ) :
    ((runAuxFA cfg time ax rho ['[', 'F'] st stk k).out.map fun b => b.position) =
      [Vec3.add st.position
        (Vec3.smul (st.length * 0.7 * (1 + (rho (k + 3) - 0.5) * cfg.lengthVariation) * 0.5)
          (Vec3.normalize (Vec3.add st.direction
            ⟨(rho k - 0.5) * 0.3, (rho (k + 1) - 0.5) * 0.3, (rho (k + 2) - 0.5) * 0.3⟩)))] := by
  simp only [runAuxFA]
  rw [stepSymFA_of_ne cfg time ax rho '[' st stk k (by decide) (by decide), stepSym_bracket]
  dsimp only
  rw [stepSymFA_of_ne cfg time ax rho 'F' _ _ _ (by decide) (by decide), stepSym_F]
  dsimp only
  simp

/-- C2 counterexample: `"[F"` is an expanded symbol string (0 iterations of
the program rules), both variation factors are zero (`SpatZeroVar`) and the
rotation axis is fixed, yet two runs on streams `0.5` and `0.9` emit
different Branch Descriptor sequences: the `[` spatial perturbation (not
governed by either variation factor) tilts the direction, so the second
run's branch position has a nonzero x component while the first run's is 0. -/
theorem c2_counterexample :
    (expandLS SPATIAL_TREE_RULES.rules "[F" 0).data = ['[', 'F'] ∧
    (runAuxFA SpatZeroVar 0 ⟨1, 0, 0⟩ (fun _ => 0.5) ['[', 'F'] initTurtle [] 0).out ≠
      (runAuxFA SpatZeroVar 0 ⟨1, 0, 0⟩ (fun _ => 0.9) ['[', 'F'] initTurtle [] 0).out := by
  refine ⟨rfl, fun h => ?_⟩
  have h1 := congrArg (List.map fun b => b.position) h
  rw [runFA_bracket_F, runFA_bracket_F] at h1
  simp only [List.cons.injEq, and_true] at h1
  have hx := congrArg Vec3.x h1
  norm_num [Vec3.add, Vec3.smul, Vec3.normalize, Vec3.len, Vec3.normSq,
    Real.sqrt_eq_zero', initTurtle, SpatZeroVar, SPATIAL_TREE_RULES, Real.sqrt_one] at hx

/-! ### Claim C7 (confirmed) -/

/-- What one `cloneState` (the copy made by `TurtleStack.push`/`pop`) does:
the copy points at three fresh cells holding the same values, the heap grows
by three cells, and no existing cell changes. -/
lemma cloneState_spec (h : Heap) (s : RState) (hs : ValidState h s) :
    (cloneState h s).1 =
      { s with posRef := h.next, dirRef := h.next + 1, colorRef := h.next + 2 } ∧
    (cloneState h s).2.next = h.next + 3 ∧
    (∀ i, i < h.next → (cloneState h s).2.store i = h.store i) ∧
    (cloneState h s).2.store h.next = h.store s.posRef ∧
    (cloneState h s).2.store (h.next + 1) = h.store s.dirRef ∧
    (cloneState h s).2.store (h.next + 2) = h.store s.colorRef := by
  obtain ⟨h1, h2, h3⟩ := hs
  unfold cloneState Heap.alloc
  dsimp only
  refine ⟨rfl, rfl, ?_, ?_, ?_, ?_⟩
  · intro i hi
    split_ifs <;> first | rfl | (exfalso; omega)
  · split_ifs <;> first | rfl | (exfalso; omega)
  · split_ifs <;> first | rfl | (exfalso; omega)
  · split_ifs <;> first | rfl | (exfalso; omega)

/-- C7: pushing a state and then immediately popping yields a state equal
to the original in all seven fields, and the pushed snapshot and the popped
result share no mutable references with the source state or with each other:
writing through any reference of the popped copy changes neither the source
state nor any state previously pushed onto the stack. -/
theorem c7_push_pop_roundtrip (h : Heap) (stk : List RState) (s : RState)
    (hs : ValidState h s) (hstk : ∀ e ∈ stk, ValidState h e) :
    ∃ (c1 p : RState) (h2 : Heap),
      (stackPush h stk s).1 = c1 :: stk ∧
      stackPop (stackPush h stk s).2 (c1 :: stk) = (some p, stk, h2) ∧
      readState h2 p = readState h s ∧
      readState h2 s = readState h s ∧
      (∀ r ∈ stateRefs p, r ∉ stateRefs s ∧ r ∉ stateRefs c1) ∧
      (∀ r ∈ stateRefs c1, r ∉ stateRefs s) ∧
      (∀ r ∈ stateRefs p, ∀ v : Vec3,
        readState (Heap.write h2 r v) s = readState h s ∧
        ∀ e ∈ stk, readState (Heap.write h2 r v) e = readState h e) := by
  obtain ⟨hs1, hs2, hs3⟩ := hs
  obtain ⟨e1, enext1, eold1, epos1, edir1, ecol1⟩ := cloneState_spec h s ⟨hs1, hs2, hs3⟩
  have hvc1 : ValidState (cloneState h s).2 (cloneState h s).1 := by
    rw [e1]
    simp only [ValidState]
    refine ⟨?_, ?_, ?_⟩ <;> dsimp only <;> omega
  obtain ⟨e2, enext2, eold2, epos2, edir2, ecol2⟩ :=
    cloneState_spec (cloneState h s).2 (cloneState h s).1 hvc1
  have hc1pos : (cloneState h s).1.posRef = h.next := by rw [e1]
  have hc1dir : (cloneState h s).1.dirRef = h.next + 1 := by rw [e1]
  have hc1col : (cloneState h s).1.colorRef = h.next + 2 := by rw [e1]
  have hppos : (cloneState (cloneState h s).2 (cloneState h s).1).1.posRef = h.next + 3 := by
    rw [e2]; dsimp only; omega
  have hpdir : (cloneState (cloneState h s).2 (cloneState h s).1).1.dirRef = h.next + 4 := by
    rw [e2]; dsimp only; omega
  have hpcol : (cloneState (cloneState h s).2 (cloneState h s).1).1.colorRef = h.next + 5 := by
    rw [e2]; dsimp only; omega
  refine ⟨(cloneState h s).1, (cloneState (cloneState h s).2 (cloneState h s).1).1,
    (cloneState (cloneState h s).2 (cloneState h s).1).2, rfl, rfl, ?_, ?_, ?_, ?_, ?_⟩
  · refine TurtleState.ext ?_ ?_ rfl rfl ?_ rfl rfl
    · dsimp only [readState]
      rw [hppos, show h.next + 3 = (cloneState h s).2.next by omega, epos2, hc1pos, epos1]
    · dsimp only [readState]
      rw [hpdir, show h.next + 4 = (cloneState h s).2.next + 1 by omega, edir2, hc1dir, edir1]
    · dsimp only [readState]
      rw [hpcol, show h.next + 5 = (cloneState h s).2.next + 2 by omega, ecol2, hc1col, ecol1]
  · refine TurtleState.ext ?_ ?_ rfl rfl ?_ rfl rfl <;> dsimp only [readState] <;>
      rw [eold2 _ (by omega), eold1 _ (by omega)]
  · intro r hr
    simp only [stateRefs, List.mem_cons, List.not_mem_nil, or_false] at hr ⊢
    rw [hppos, hpdir, hpcol] at hr
    rw [hc1pos, hc1dir, hc1col]
    rcases hr with rfl | rfl | rfl <;>
      exact ⟨by push_neg; exact ⟨by omega, by omega, by omega⟩,
        by push_neg; exact ⟨by omega, by omega, by omega⟩⟩
  · intro r hr
    simp only [stateRefs, List.mem_cons, List.not_mem_nil, or_false] at hr ⊢
    rw [hc1pos, hc1dir, hc1col] at hr
    rcases hr with rfl | rfl | rfl <;>
      (push_neg; exact ⟨by omega, by omega, by omega⟩)
  · intro r hr v
    simp only [stateRefs, List.mem_cons, List.not_mem_nil, or_false] at hr
    rw [hppos, hpdir, hpcol] at hr
    have hwrite : ∀ e : RState, ValidState h e →
        readState (Heap.write (cloneState (cloneState h s).2 (cloneState h s).1).2 r v) e =
          readState h e := by
      intro e he
      obtain ⟨he1, he2, he3⟩ := he
      refine TurtleState.ext ?_ ?_ rfl rfl ?_ rfl rfl <;>
        · dsimp only [readState, Heap.write]
          rw [if_neg (by rcases hr with rfl | rfl | rfl <;> omega),
            eold2 _ (by omega), eold1 _ (by omega)]
    exact ⟨hwrite s ⟨hs1, hs2, hs3⟩, fun e he => hwrite e (hstk e he)⟩

/-- Witness for `c7_push_pop_roundtrip` on a concrete three-cell heap with
an empty stack. -/
theorem c7_push_pop_roundtrip_witness :
    (ValidState ⟨fun _ => ⟨0, 0, 0⟩, 3⟩ ⟨0, 1, 2, 1, 2, 3, 4⟩ ∧
      (∀ e ∈ ([] : List RState), ValidState ⟨fun _ => ⟨0, 0, 0⟩, 3⟩ e)) ∧
    (∃ (c1 p : RState) (h2 : Heap),
      (stackPush ⟨fun _ => ⟨0, 0, 0⟩, 3⟩ [] ⟨0, 1, 2, 1, 2, 3, 4⟩).1 = c1 :: [] ∧
      stackPop (stackPush ⟨fun _ => ⟨0, 0, 0⟩, 3⟩ [] ⟨0, 1, 2, 1, 2, 3, 4⟩).2 (c1 :: []) =
        (some p, [], h2) ∧
      readState h2 p = readState ⟨fun _ => ⟨0, 0, 0⟩, 3⟩ ⟨0, 1, 2, 1, 2, 3, 4⟩ ∧
      readState h2 ⟨0, 1, 2, 1, 2, 3, 4⟩ =
        readState ⟨fun _ => ⟨0, 0, 0⟩, 3⟩ ⟨0, 1, 2, 1, 2, 3, 4⟩ ∧
      (∀ r ∈ stateRefs p, r ∉ stateRefs (⟨0, 1, 2, 1, 2, 3, 4⟩ : RState) ∧ r ∉ stateRefs c1) ∧
      (∀ r ∈ stateRefs c1, r ∉ stateRefs (⟨0, 1, 2, 1, 2, 3, 4⟩ : RState)) ∧
      (∀ r ∈ stateRefs p, ∀ v : Vec3,
        readState (Heap.write h2 r v) ⟨0, 1, 2, 1, 2, 3, 4⟩ =
          readState ⟨fun _ => ⟨0, 0, 0⟩, 3⟩ ⟨0, 1, 2, 1, 2, 3, 4⟩ ∧
        ∀ e ∈ ([] : List RState),
          readState (Heap.write h2 r v) e = readState ⟨fun _ => ⟨0, 0, 0⟩, 3⟩ e)) := by
  have hval : ValidState ⟨fun _ => ⟨0, 0, 0⟩, 3⟩ (⟨0, 1, 2, 1, 2, 3, 4⟩ : RState) := by
    simp [ValidState]
  have hnil : ∀ e ∈ ([] : List RState), ValidState ⟨fun _ => ⟨0, 0, 0⟩, 3⟩ e := by simp
  exact ⟨⟨hval, hnil⟩, c7_push_pop_roundtrip _ [] _ hval hnil⟩
